import Mathlib

/-!
Shallow embedding of `cheatbot_gemini.py`: a Telegram bot that extracts text
from an uploaded document or image, normalizes it, stores it per user, and
answers questions either grounded in the stored text or open-domain.

Python strings are modelled as `List Char` (Python `len`, slicing and
`str.strip` all operate on Unicode code points, as `List Char` does).
The global dict `USER_TEXTS : dict[int, str]` is modelled as a function
`Int → Option (List Char)`.  External collaborators (the Telegram transport,
the extraction libraries fitz/pytesseract/docx, and the Gemini client) are
modelled as oracle parameters supplying their outcome for the one call the
handler makes; a raised exception is an `Except.error` carrying the
exception's textual representation.
-/

/-- Characters for which Python's `str.isspace()` holds (the set stripped by
`str.strip()` with no argument): ASCII whitespace, the C1 separators
0x1C-0x1F, NEL, NBSP and the Unicode space/separator code points. -/
def pyIsSpace (c : Char) : Bool :=
  let n := c.toNat
  (9 ≤ n && n ≤ 13) || (28 ≤ n && n ≤ 31) || n == 32 || n == 133 || n == 160 ||
  n == 0x1680 || (0x2000 ≤ n && n ≤ 0x200A) || n == 0x2028 || n == 0x2029 ||
  n == 0x202F || n == 0x205F || n == 0x3000

/-- Python `s.strip()`: drop `pyIsSpace` characters from both ends. -/
def pyStrip (l : List Char) : List Char :=
  ((l.dropWhile pyIsSpace).reverse.dropWhile pyIsSpace).reverse

/-- Embeds line 56: `text.replace("ي", "ی").replace("ك", "ک")` applied to one
character (both replacements are single-character substitutions). -/
def foldChar (c : Char) : Char :=
  if c = 'ي' then 'ی' else if c = 'ك' then 'ک' else c

/-- The character class `[ \t]` of the regex on line 57. -/
def isHWS (c : Char) : Bool := c == ' ' || c == '\t'

/-- The character class `\n` of the regex on line 58. -/
def isNL (c : Char) : Bool := c == '\n'

/-- Replace every maximal run of characters satisfying `p` by the single
character `r`.  With `p := isHWS, r := ' '` this is
`re.sub(r"[ \t]+", " ", ·)`; with `p := isNL, r := '\n'` it is
`re.sub(r"\n{2,}", "\n", ·)` (a run of one `'\n'` is replaced by itself, so
collapsing every run agrees with collapsing only runs of length ≥ 2). -/
def collapseRuns (p : Char → Bool) (r : Char) : List Char → List Char
  | [] => []
  | [c] => if p c then [r] else [c]
  | c :: d :: rest =>
    if p c && p d then collapseRuns p r (d :: rest)
    else (if p c then r else c) :: collapseRuns p r (d :: rest)

/-- Embeds `normalize_persian` (lines 55-59): fold Arabic yeh/kaf to their
Persian forms, collapse horizontal-whitespace runs to one space, collapse
newline runs to one newline, then strip. -/
def normalize_persian (text : List Char) : List Char :=
  pyStrip (collapseRuns isNL '\n' (collapseRuns isHWS ' ' (text.map foldChar)))

/-- Embeds `MAX_CONTEXT_CHARS = 15000` (line 44). -/
def MAX_CONTEXT_CHARS : Nat := 15000

/-- Embeds `MAX_FILE_MB = 20` (line 45). -/
def MAX_FILE_MB : Nat := 20

/-- Embeds `file_too_large` (lines 69-70):
`size_bytes > MAX_FILE_MB * 1024 * 1024`. -/
def file_too_large (size_bytes : Nat) : Bool :=
  size_bytes > MAX_FILE_MB * 1024 * 1024

/-- The global dict `USER_TEXTS : dict[int, str]` (line 42), as a total map
from user id to the optionally stored normalized text. -/
abbrev Store := Int → Option (List Char)

/-- Dict write `USER_TEXTS[user_id] = text` (lines 155, 179). -/
def setText (s : Store) (u : Int) (t : List Char) : Store :=
  fun v => if v = u then some t else s v

/-- Dict removal `USER_TEXTS.pop(user_id, None)` (line 126): removes the entry
if present, does nothing otherwise, never raises. -/
def popText (s : Store) (u : Int) : Store :=
  fun v => if v = u then none else s v

/-- Embeds `extract_text` (lines 74-97).  The format-specific library calls
(fitz page extraction, pytesseract OCR, python-docx paragraphs, the tolerant
text read) are abstracted as the oracle `raw`, the library outcome for this
file: `Except.error e` models a raised library exception, `Except.ok t` the
raw extracted text (for an unrecognized extension the code leaves
`text = ""`, i.e. `Except.ok []`).  On success the result is passed through
`normalize_persian` (line 97); a library exception propagates to the caller
uncaught. -/
def extract_text (raw : Except (List Char) (List Char)) :
    Except (List Char) (List Char) :=
  match raw with
  | .error e => .error e
  | .ok t => .ok (normalize_persian t)

/-- Outcome of one document/photo handler run: either an exception escaped
the handler uncaught (`raised`), or the handler replied with a message
(`replied`). -/
inductive DocResult
  | raised (e : List Char)
  | replied (msg : List Char)
deriving DecidableEq

/-- Reply on line 140 with `MAX_FILE_MB = 20` interpolated. -/
def tooLargeMsg : List Char := "❌ فایل خیلی بزرگه. (حداکثر 20MB)".data

/-- Reply on line 152. -/
def noUsableMsg : List Char := "❌ متن قابل‌استفاده‌ای استخراج نشد.".data

/-- Reply on line 176. -/
def noUsablePhotoMsg : List Char := "❌ متن قابل‌استفاده‌ای از عکس استخراج نشد.".data

/-- Reply on lines 156 and 180. -/
def storedMsg : List Char := "✅ متن استخراج شد.\n❓ حالا سؤال خودت رو بپرس.".data

/-- Reply on line 127. -/
def forgetMsg : List Char := "✅ فایل قبلی فراموش شد.\n📄 فایل جدید ارسال کن.".data

/-- Reply on line 130. -/
def sendFileMsg : List Char := "📄 لطفاً فایل را ارسال کن.".data

/-- The forget button text (lines 48, 125). -/
def forgetButton : List Char := "فراموشی 🗑".data

/-- The start button text (lines 48, 129). -/
def startButton : List Char := "شروع 📄".data

/-- Sentinel on line 212. -/
def noAnswerMsg : List Char := "❌ پاسخی تولید نشد.".data

/-- Generic backend-failure reply on line 218. -/
def geminiErrorMsg : List Char := "❌ خطا در اتصال/پاسخ‌دهی Gemini. لطفاً دوباره امتحان کن.".data

/-- The condition of line 139, `doc.file_size and file_too_large(doc.file_size)`:
`doc.file_size` is `None` or an int, and Python truthiness makes the gate run
only when it is present and nonzero. -/
def sizeGate : Option Nat → Bool
  | none => false
  | some n => (n != 0) && file_too_large n

/-- Embeds `handle_document` (lines 133-156) for a present document
(`doc` not `None`): the declared-size gate, then extraction of the downloaded
file (the oracle `raw`), the 50-character usability check, and on success the
store update.  There is no `try`/`except` around the extraction call on
line 149, so a library exception escapes the handler (`DocResult.raised`);
the store is never modified on that path. -/
def handle_document (s : Store) (u : Int) (fileSize : Option Nat)
    (raw : Except (List Char) (List Char)) : Store × DocResult :=
  if sizeGate fileSize then (s, .replied tooLargeMsg)
  else
    match extract_text raw with
    | .error e => (s, .raised e)
    | .ok text =>
      if text.length < 50 then (s, .replied noUsableMsg)
      else (setText s u text, .replied storedMsg)

/-- Embeds `handle_photo` (lines 159-180) for a nonempty photo list: no size
gate, extraction of the downloaded largest photo (the oracle `raw`), the
50-character usability check, and on success the store update.  As in
`handle_document` the extraction call (line 173) is not wrapped in
`try`/`except`. -/
def handle_photo (s : Store) (u : Int)
    (raw : Except (List Char) (List Char)) : Store × DocResult :=
  match extract_text raw with
  | .error e => (s, .raised e)
  | .ok text =>
    if text.length < 50 then (s, .replied noUsablePhotoMsg)
    else (setText s u text, .replied storedMsg)

/-- Embeds `handle_buttons` (lines 121-130): strip the incoming message text
(`update.message.text` may be `None`); the forget button pops the user's
entry and confirms, the start button just replies, anything else does
nothing. -/
def handle_buttons (s : Store) (u : Int) (rawText : Option (List Char)) :
    Store × Option (List Char) :=
  let text := pyStrip (rawText.getD [])
  if text = forgetButton then (popText s u, some forgetMsg)
  else if text = startButton then (s, some sendFileMsg)
  else (s, none)

/-- Text before the interpolated context in the grounded f-string
(lines 192-198). -/
def groundedPre : List Char :=
  "\nتو یک دستیار پاسخ‌گویی هستی.\nاول متن را در نظر بگیر و بعد به سؤال جواب بده.\nاگر پاسخ در متن نبود، صریح بگو:\n«این اطلاعات در متن موجود نیست.»\n\nمتن:\n".data

/-- Text between the interpolated context and question (lines 199-202). -/
def groundedMid : List Char := "\n\nسؤال:\n".data

/-- Fixed text of the open-domain prompt (line 205). -/
def openPre : List Char := "به این سؤال دقیق و واضح جواب بده:\n".data

/-- Prompt construction of `handle_question` (lines 190-205): with a stored
text, the first `MAX_CONTEXT_CHARS` characters of it are interpolated into
the grounded template, which is then stripped (line 203); without one, the
open-domain prompt is used. -/
def buildPrompt (s : Store) (u : Int) (question : List Char) : List Char :=
  match s u with
  | some t =>
    pyStrip (groundedPre ++ t.take MAX_CONTEXT_CHARS ++ groundedMid ++
      question ++ [ '\n' ])
  | none => openPre ++ question

/-- Embeds `gemini_answer` (lines 101-107): `(resp.text or "").strip()`,
where `resp.text` may be `None`. -/
def gemini_answer (respText : Option (List Char)) : List Char :=
  pyStrip (respText.getD [])

/-- Result of one `handle_question` run that got past the empty-question
guard: the prompt it built, the reply sent to the user, and what was printed
to the log (`print("Gemini error:", repr(e))` on the failure path). -/
structure QReply where
  prompt : List Char
  reply : List Char
  log : Option (List Char)
deriving DecidableEq

/-- Embeds `handle_question` (lines 183-218).  The incoming text is stripped;
an empty question returns without replying (`none`).  Otherwise the prompt is
built and the Gemini call is made through the oracle `backend`
(`Except.error e` models `gemini_answer` raising, `Except.ok respText` models
`resp.text`).  An empty answer is replaced by the sentinel (lines 211-212);
an exception is caught (lines 215-218), its representation logged, and the
fixed generic message sent instead. -/
def handle_question (s : Store) (u : Int) (rawText : Option (List Char))
    (backend : Except (List Char) (Option (List Char))) : Option QReply :=
  let question := pyStrip (rawText.getD [])
  if question = [] then none
  else
    let prompt := buildPrompt s u question
    match backend with
    | .error e => some ⟨prompt, geminiErrorMsg, some e⟩
    | .ok respText =>
      let answer := gemini_answer respText
      some ⟨prompt, if answer = [] then noAnswerMsg else answer, none⟩

/-- The grounded template text up to the interpolated context, without the
leading newline that line 203's `.strip()` removes (the tail of
`groundedPre`). -/
def groundedPreStripped : List Char :=
  "تو یک دستیار پاسخ‌گویی هستی.\nاول متن را در نظر بگیر و بعد به سؤال جواب بده.\nاگر پاسخ در متن نبود، صریح بگو:\n«این اطلاعات در متن موجود نیست.»\n\nمتن:\n".data

/-- Adjacent characters do not both satisfy `p`. -/
def noTwo (p : Char → Bool) (a b : Char) : Prop := ¬(p a = true ∧ p b = true)

/-- Shape of any `normalize_persian` output: all characters are fixed by the
glyph folding, every horizontal-whitespace character is a plain space, no two
adjacent horizontal-whitespace characters, no two adjacent newlines, and the
ends are stripped. -/
def Normalized (l : List Char) : Prop :=
  (∀ c ∈ l, foldChar c = c) ∧
  (∀ c ∈ l, isHWS c = true → c = ' ') ∧
  List.Chain' (noTwo isHWS) l ∧
  List.Chain' (noTwo isNL) l ∧
  pyStrip l = l

/-! ### Properties of `collapseRuns` -/

theorem collapseRuns_mem (p : Char → Bool) (r : Char) :
    ∀ l, ∀ c ∈ collapseRuns p r l, c = r ∨ c ∈ l := by
  intro l
  induction l with
  | nil => intro c hc; simp [collapseRuns] at hc
  | cons a l ih =>
    cases l with
    | nil =>
      intro c hc
      by_cases hpa : p a = true <;> simp [collapseRuns, hpa] at hc <;> simp [hc]
    | cons d rest =>
      intro c hc
      by_cases hrun : (p a && p d) = true
      · simp only [collapseRuns, hrun, if_true] at hc
        rcases ih c hc with h | h
        · exact Or.inl h
        · exact Or.inr (List.mem_cons_of_mem _ h)
      · simp only [collapseRuns, hrun, if_false, Bool.not_eq_true] at hc
        rcases List.mem_cons.mp hc with h | h
        · by_cases hpa : p a = true <;> simp [hpa] at h <;> simp [h]
        · rcases ih c h with h2 | h2
          · exact Or.inl h2
          · exact Or.inr (List.mem_cons_of_mem _ h2)

theorem collapseRuns_sat (p : Char → Bool) (r : Char) :
    ∀ l, ∀ c ∈ collapseRuns p r l, p c = true → c = r := by
  intro l
  induction l with
  | nil => intro c hc; simp [collapseRuns] at hc
  | cons a l ih =>
    cases l with
    | nil =>
      intro c hc hpc
      by_cases hpa : p a = true <;> simp [collapseRuns, hpa] at hc
      · exact hc
      · rw [hc] at hpc; rw [hpc] at hpa; simp at hpa
    | cons d rest =>
      intro c hc hpc
      by_cases hrun : (p a && p d) = true
      · simp only [collapseRuns, hrun, if_true] at hc
        exact ih c hc hpc
      · simp only [collapseRuns, hrun, if_false, Bool.not_eq_true] at hc
        rcases List.mem_cons.mp hc with h | h
        · by_cases hpa : p a = true <;> simp [hpa] at h
          · exact h
          · rw [h] at hpc; rw [hpc] at hpa; simp at hpa
        · exact ih c h hpc

theorem collapseRuns_cons_head (p : Char → Bool) (r : Char) :
    ∀ l a, ∃ t, collapseRuns p r (a :: l) = (if p a then r else a) :: t := by
  intro l
  induction l with
  | nil =>
    intro a
    by_cases hpa : p a = true <;> exact ⟨[], by simp [collapseRuns, hpa]⟩
  | cons d rest ih =>
    intro a
    by_cases hrun : (p a && p d) = true
    · obtain ⟨hpa, hpd⟩ := Bool.and_eq_true_iff.mp hrun
      obtain ⟨t, ht⟩ := ih d
      refine ⟨t, ?_⟩
      rw [show collapseRuns p r (a :: d :: rest) = collapseRuns p r (d :: rest) from
        by simp [collapseRuns, hrun]]
      rw [ht, if_pos hpd, if_pos hpa]
    · exact ⟨collapseRuns p r (d :: rest), by simp [collapseRuns, hrun]⟩

theorem collapseRuns_chain_self (p : Char → Bool) (r : Char) :
    ∀ l, List.Chain' (noTwo p) (collapseRuns p r l) := by
  intro l
  induction l with
  | nil => simp [collapseRuns]
  | cons a l ih =>
    cases l with
    | nil => by_cases hpa : p a = true <;> simp [collapseRuns, hpa]
    | cons d rest =>
      by_cases hrun : (p a && p d) = true
      · simpa only [collapseRuns, hrun, if_true] using ih
      · obtain ⟨t, ht⟩ := collapseRuns_cons_head p r rest d
        have h2 := ih
        rw [show collapseRuns p r (a :: d :: rest) =
            (if p a then r else a) :: collapseRuns p r (d :: rest) from
          by simp [collapseRuns, hrun]]
        rw [ht] at h2 ⊢
        refine List.chain'_cons.mpr ⟨?_, h2⟩
        have hnot : ¬(p a = true ∧ p d = true) := by
          intro ⟨h1, h2⟩; exact hrun (by simp [h1, h2])
        unfold noTwo
        by_cases hpa : p a = true <;> by_cases hpd : p d = true <;>
          simp [hpa, hpd] at hnot ⊢

theorem collapseRuns_chain_preserve (p : Char → Bool) (r : Char)
    (Q : Char → Char → Prop) (hQr : ∀ x, Q x r) (hrQ : ∀ x, Q r x) :
    ∀ l, List.Chain' Q l → List.Chain' Q (collapseRuns p r l) := by
  intro l
  induction l with
  | nil => intro _; simp [collapseRuns]
  | cons a l ih =>
    cases l with
    | nil => intro _; by_cases hpa : p a = true <;> simp [collapseRuns, hpa]
    | cons d rest =>
      intro hch
      obtain ⟨had, htail⟩ := List.chain'_cons.mp hch
      by_cases hrun : (p a && p d) = true
      · simpa only [collapseRuns, hrun, if_true] using ih htail
      · obtain ⟨t, ht⟩ := collapseRuns_cons_head p r rest d
        have h2 := ih htail
        rw [show collapseRuns p r (a :: d :: rest) =
            (if p a then r else a) :: collapseRuns p r (d :: rest) from
          by simp [collapseRuns, hrun]]
        rw [ht] at h2 ⊢
        refine List.chain'_cons.mpr ⟨?_, h2⟩
        by_cases hpa : p a = true <;> by_cases hpd : p d = true <;>
          simp only [hpa, hpd, if_true, if_false] <;>
          first
            | exact hrQ _
            | exact hQr _
            | exact had

theorem collapseRuns_eq_self (p : Char → Bool) (r : Char) :
    ∀ l, (∀ c ∈ l, p c = true → c = r) → List.Chain' (noTwo p) l →
    collapseRuns p r l = l := by
  intro l
  induction l with
  | nil => intro _ _; simp [collapseRuns]
  | cons a l ih =>
    cases l with
    | nil =>
      intro hall _
      by_cases hpa : p a = true
      · simp [collapseRuns, hpa]
        exact (hall a (by simp) hpa).symm
      · simp [collapseRuns, hpa]
    | cons d rest =>
      intro hall hch
      obtain ⟨had, htail⟩ := List.chain'_cons.mp hch
      have hrun : ¬((p a && p d) = true) := by
        intro h
        obtain ⟨h1, h2⟩ := Bool.and_eq_true_iff.mp h
        exact had ⟨h1, h2⟩
      rw [show collapseRuns p r (a :: d :: rest) =
          (if p a then r else a) :: collapseRuns p r (d :: rest) from
        by simp [collapseRuns, hrun]]
      rw [ih (fun c hc hpc => hall c (List.mem_cons_of_mem _ hc) hpc) htail]
      congr 1
      by_cases hpa : p a = true
      · rw [if_pos hpa]; exact (hall a (by simp) hpa).symm
      · rw [if_neg hpa]

/-! ### Properties of `pyStrip` -/

theorem dropWhile_head_not (p : Char → Bool) :
    ∀ l a t, List.dropWhile p l = a :: t → p a = false := by
  intro l
  induction l with
  | nil => intro a t h; simp [List.dropWhile] at h
  | cons c l ih =>
    intro a t h
    by_cases hpc : p c = true
    · rw [List.dropWhile_cons, if_pos hpc] at h
      exact ih a t h
    · rw [List.dropWhile_cons, if_neg hpc] at h
      injection h with h1 _
      subst h1
      exact Bool.not_eq_true _ ▸ hpc

theorem dropWhile_dropWhile (p : Char → Bool) (l : List Char) :
    List.dropWhile p (List.dropWhile p l) = List.dropWhile p l := by
  rcases h : List.dropWhile p l with _ | ⟨a, t⟩
  · simp
  · have hpa := dropWhile_head_not p l a t h
    rw [List.dropWhile_cons, if_neg (by simp [hpa])]

theorem mem_of_mem_dropWhile (p : Char → Bool) (l : List Char) (c : Char)
    (h : c ∈ List.dropWhile p l) : c ∈ l :=
  (List.IsSuffix.sublist (List.dropWhile_suffix p)).subset h

theorem pyStrip_mem (l : List Char) (c : Char) (h : c ∈ pyStrip l) : c ∈ l := by
  unfold pyStrip at h
  rw [List.mem_reverse] at h
  have h1 := mem_of_mem_dropWhile _ _ _ h
  rw [List.mem_reverse] at h1
  exact mem_of_mem_dropWhile _ _ _ h1

theorem pyStrip_chain (R : Char → Char → Prop) (hsym : ∀ a b, R a b → R b a)
    (l : List Char) (h : List.Chain' R l) : List.Chain' R (pyStrip l) := by
  unfold pyStrip
  have h1 : List.Chain' R (List.dropWhile pyIsSpace l) :=
    h.suffix (List.dropWhile_suffix _)
  have h2 : List.Chain' (flip R) (List.dropWhile pyIsSpace l) :=
    h1.imp (fun a b hab => hsym _ _ hab)
  have h3 : List.Chain' R (List.dropWhile pyIsSpace l).reverse :=
    List.chain'_reverse.mpr h2
  have h4 : List.Chain' R
      (List.dropWhile pyIsSpace (List.dropWhile pyIsSpace l).reverse) :=
    h3.suffix (List.dropWhile_suffix _)
  exact List.chain'_reverse.mpr (h4.imp (fun a b hab => hsym _ _ hab))

theorem pyStrip_idem (l : List Char) : pyStrip (pyStrip l) = pyStrip l := by
  unfold pyStrip
  have hAd := dropWhile_dropWhile pyIsSpace l
  set A := List.dropWhile pyIsSpace l with hA
  set B := (List.dropWhile pyIsSpace A.reverse).reverse with hB
  have hBfix : List.dropWhile pyIsSpace B = B := by
    rcases hBc : B with _ | ⟨b, t⟩
    · simp
    · obtain ⟨s, hs⟩ : ∃ s, s ++ List.dropWhile pyIsSpace A.reverse = A.reverse :=
        List.dropWhile_suffix pyIsSpace
    -- `B` is an initial segment of `A`, so its head is the head of `A`,
    -- which fails `pyIsSpace` because `A` is the result of a `dropWhile`.
      have hAeq : A = B ++ s.reverse := by
        rw [hB, ← List.reverse_append, hs, List.reverse_reverse]
      rw [hBc] at hAeq
      have hhead : List.dropWhile pyIsSpace A = A := hAd
      rw [hAeq] at hhead
      have hpb : pyIsSpace b = false := by
        by_cases hpb' : pyIsSpace b = true
        · exfalso
          rw [List.cons_append, List.dropWhile_cons, if_pos hpb'] at hhead
          have hle : (List.dropWhile pyIsSpace (t ++ s.reverse)).length ≤
              (t ++ s.reverse).length :=
            (List.IsSuffix.sublist (List.dropWhile_suffix pyIsSpace)).length_le
          rw [hhead] at hle
          simp only [List.length_cons] at hle
          omega
        · simpa using hpb'
      rw [List.dropWhile_cons, if_neg (by simp [hpb])]
  have hrevB : B.reverse = List.dropWhile pyIsSpace A.reverse := by
    rw [hB, List.reverse_reverse]
  rw [hBfix, hrevB, dropWhile_dropWhile, ← hrevB, List.reverse_reverse]

/-! ### The normalizer's output shape -/

theorem foldChar_foldChar (c : Char) : foldChar (foldChar c) = foldChar c := by
  by_cases h1 : c = 'ي'
  · subst h1; decide
  by_cases h2 : c = 'ك'
  · subst h2; decide
  · simp [foldChar, h1, h2]

theorem noTwo_symm (p : Char → Bool) (a b : Char) (h : noTwo p a b) :
    noTwo p b a :=
  fun hx => h ⟨hx.2, hx.1⟩

theorem map_foldChar_eq_self (l : List Char) (h : ∀ c ∈ l, foldChar c = c) :
    l.map foldChar = l := by
  induction l with
  | nil => rfl
  | cons a l ih =>
    simp only [List.map_cons, h a (by simp),
      ih (fun c hc => h c (List.mem_cons_of_mem _ hc))]

theorem normalized_normalize (l : List Char) :
    Normalized (normalize_persian l) := by
  unfold normalize_persian Normalized
  refine ⟨?_, ?_, ?_, ?_, ?_⟩
  · intro c hc
    have hc2 := pyStrip_mem _ _ hc
    rcases collapseRuns_mem _ _ _ _ hc2 with h | h
    · rw [h]; decide
    rcases collapseRuns_mem _ _ _ _ h with h2 | h2
    · rw [h2]; decide
    · obtain ⟨x, _, hfx⟩ := List.mem_map.mp h2
      rw [← hfx]
      exact foldChar_foldChar x
  · intro c hc hhws
    have hc2 := pyStrip_mem _ _ hc
    rcases collapseRuns_mem _ _ _ _ hc2 with h | h
    · rw [h] at hhws; exact absurd hhws (by decide)
    · exact collapseRuns_sat _ _ _ _ h hhws
  · refine pyStrip_chain _ (noTwo_symm _) _ ?_
    refine collapseRuns_chain_preserve isNL '\n' (noTwo isHWS)
      (fun x h => absurd h.2 (by decide))
      (fun x h => absurd h.1 (by decide)) _ ?_
    exact collapseRuns_chain_self isHWS ' ' _
  · exact pyStrip_chain _ (noTwo_symm _) _ (collapseRuns_chain_self isNL '\n' _)
  · exact pyStrip_idem _

theorem normalize_of_normalized (l : List Char) (h : Normalized l) :
    normalize_persian l = l := by
  obtain ⟨hfold, hhws, hchw, hchn, hstrip⟩ := h
  unfold normalize_persian
  rw [map_foldChar_eq_self l hfold,
    collapseRuns_eq_self isHWS ' ' l hhws hchw,
    collapseRuns_eq_self isNL '\n' l
      (fun c _ hnl => by simpa [isNL] using hnl) hchn,
    hstrip]

/-! ### Heads and tails of stripped strings -/

theorem pyStrip_head_not (l : List Char) (a : Char) (t : List Char)
    (h : pyStrip l = a :: t) : pyIsSpace a = false := by
  unfold pyStrip at h
  obtain ⟨s, hs⟩ : ∃ s, s ++ List.dropWhile pyIsSpace
      (List.dropWhile pyIsSpace l).reverse =
      (List.dropWhile pyIsSpace l).reverse :=
    List.dropWhile_suffix pyIsSpace
  have hAeq : List.dropWhile pyIsSpace l =
      (List.dropWhile pyIsSpace (List.dropWhile pyIsSpace l).reverse).reverse ++
        s.reverse := by
    rw [← List.reverse_append, hs, List.reverse_reverse]
  rw [h] at hAeq
  rw [List.cons_append] at hAeq
  exact dropWhile_head_not pyIsSpace l a (t ++ s.reverse) hAeq

theorem pyStrip_getLast_not (l : List Char) (a : Char) (t : List Char)
    (h : (pyStrip l).reverse = a :: t) : pyIsSpace a = false := by
  unfold pyStrip at h
  rw [List.reverse_reverse] at h
  exact dropWhile_head_not pyIsSpace _ a t h

/-! ### Shape of the grounded prompt -/

theorem pyStrip_grounded (ctx q : List Char) (hq : pyStrip q = q)
    (hqne : q ≠ []) :
    pyStrip (groundedPre ++ ctx ++ groundedMid ++ q ++ [ '\n' ]) =
    groundedPreStripped ++ ctx ++ groundedMid ++ q := by
  have hfront : ∀ X : List Char,
      List.dropWhile pyIsSpace (groundedPre ++ X) = groundedPreStripped ++ X := by
    intro X
    rw [show groundedPre = '\n' :: groundedPreStripped from by decide]
    rw [List.cons_append, List.dropWhile_cons, if_pos (by decide)]
    rw [show groundedPreStripped = 'ت' :: groundedPreStripped.tail from by decide]
    rw [List.cons_append, List.dropWhile_cons, if_neg (by decide)]
  obtain ⟨b, t', hb⟩ : ∃ b t', q.reverse = b :: t' := by
    rcases hq' : q.reverse with _ | ⟨b, t'⟩
    · exact absurd (by simpa using congrArg List.reverse hq') hqne
    · exact ⟨b, t', rfl⟩
  have hpb : pyIsSpace b = false :=
    pyStrip_getLast_not q b t' (by rw [hq, hb])
  have hq2 : t'.reverse ++ [ b ] = q := by
    rw [← List.reverse_cons, ← hb, List.reverse_reverse]
  unfold pyStrip
  rw [show groundedPre ++ ctx ++ groundedMid ++ q ++ [ '\n' ] =
      groundedPre ++ (ctx ++ (groundedMid ++ (q ++ [ '\n' ]))) from by
    simp [List.append_assoc]]
  rw [hfront]
  rw [show (groundedPreStripped ++ (ctx ++ (groundedMid ++ (q ++ [ '\n' ])))).reverse
      = '\n' :: (q.reverse ++ (groundedMid.reverse ++
        (ctx.reverse ++ groundedPreStripped.reverse))) from by simp]
  rw [List.dropWhile_cons, if_pos (by decide)]
  rw [hb, List.cons_append, List.dropWhile_cons, if_neg (by simp [hpb])]
  simp only [List.reverse_cons, List.reverse_append, List.reverse_reverse,
    List.append_assoc]
  rw [hq2]

/-! ### Claim theorems -/

/-- C2: the normalizer is idempotent — for every string `t` (including the
empty string), `normalize_persian (normalize_persian t) = normalize_persian t`. -/
theorem normalize_persian_idem (t : List Char) :
    normalize_persian (normalize_persian t) = normalize_persian t :=
  normalize_of_normalized _ (normalized_normalize t)

/-- C3: for every input string `t`, the output of `normalize_persian t`
contains no substring of two or more consecutive newline characters — it is
never of the form `s ++ "\n\n" ++ r`. -/
theorem normalize_persian_no_double_newline (t : List Char) :
    ∀ s r : List Char, normalize_persian t ≠ s ++ '\n' :: '\n' :: r := by
  intro s r heq
  have hch : List.Chain' (noTwo isNL) (normalize_persian t) :=
    (normalized_normalize t).2.2.2.1
  rw [heq] at hch
  have h2 := (List.chain'_append.mp hch).2.1
  exact (List.chain'_cons.mp h2).1 ⟨by decide, by decide⟩

/-- Witness for C3 at a concrete input: normalizing `"a\n\nb"` does not give
back `"a\n\nb"` (it cannot contain the double newline). -/
theorem normalize_persian_no_double_newline_witness :
    normalize_persian ('a' :: '\n' :: '\n' :: 'b' :: []) ≠
      ('a' :: []) ++ '\n' :: '\n' :: ('b' :: []) :=
  normalize_persian_no_double_newline ('a' :: '\n' :: '\n' :: 'b' :: [])
    ('a' :: []) ('b' :: [])

/-- C4: the size gate is exact at the 20 MiB boundary —
`file_too_large (20*1024*1024) = false`,
`file_too_large (20*1024*1024 + 1) = true`, and in general
`file_too_large n` holds iff `n > 20*1024*1024`. -/
theorem file_too_large_boundary :
    file_too_large (20 * 1024 * 1024) = false ∧
    file_too_large (20 * 1024 * 1024 + 1) = true ∧
    ∀ n : Nat, file_too_large n = true ↔ 20 * 1024 * 1024 < n := by
  refine ⟨by decide, by decide, fun n => ?_⟩
  simp [file_too_large, MAX_FILE_MB]

/-- C1: for a stored session text longer than `MAX_CONTEXT_CHARS = 15000`
characters, the grounded prompt embeds verbatim exactly the first 15000
characters of the stored text (which `handle_document` stores normalized),
never more: the prompt is the fixed template around `t.take 15000`, that
slice has length exactly 15000 and is the initial segment of `t`, and in
general the embedded context `List.take MAX_CONTEXT_CHARS t'` never exceeds
15000 characters. -/
theorem grounded_prompt_truncation (s : Store) (u : Int) (t q : List Char)
    (hs : s u = some t) (hlong : MAX_CONTEXT_CHARS < t.length)
    (hq : pyStrip q = q) (hqne : q ≠ []) :
    buildPrompt s u q =
      groundedPreStripped ++ t.take MAX_CONTEXT_CHARS ++ groundedMid ++ q ∧
    (t.take MAX_CONTEXT_CHARS).length = MAX_CONTEXT_CHARS ∧
    t.take MAX_CONTEXT_CHARS ++ t.drop MAX_CONTEXT_CHARS = t ∧
    ∀ t' : List Char,
      (List.take MAX_CONTEXT_CHARS t').length ≤ MAX_CONTEXT_CHARS := by
  refine ⟨?_, ?_, List.take_append_drop _ _, fun t' => ?_⟩
  · simp only [buildPrompt, hs]
    exact pyStrip_grounded _ q hq hqne
  · rw [List.length_take]
    omega
  · rw [List.length_take]
    omega

/-- Witness for C1 at a concrete input: a stored text of 15001 characters and
the question `"x"`. -/
theorem grounded_prompt_truncation_witness :
    buildPrompt
      (fun v => if v = 0 then some (List.replicate 15001 'a') else none) 0
      ('x' :: []) =
      groundedPreStripped ++
        (List.replicate 15001 'a').take MAX_CONTEXT_CHARS ++
        groundedMid ++ ('x' :: []) ∧
    ((List.replicate 15001 'a').take MAX_CONTEXT_CHARS).length =
      MAX_CONTEXT_CHARS ∧
    (List.replicate 15001 'a').take MAX_CONTEXT_CHARS ++
      (List.replicate 15001 'a').drop MAX_CONTEXT_CHARS =
      List.replicate 15001 'a' ∧
    ∀ t' : List Char,
      (List.take MAX_CONTEXT_CHARS t').length ≤ MAX_CONTEXT_CHARS :=
  grounded_prompt_truncation
    (fun v => if v = 0 then some (List.replicate 15001 'a') else none) 0
    (List.replicate 15001 'a') ('x' :: []) rfl
    (by rw [List.length_replicate]; decide) (by decide) (by decide)

/-- C5: the usability threshold is exactly 50 characters — extracted and
normalized text of length < 50 is treated as extraction failure and not
stored, while length ≥ 50 is accepted and stored in the session store for
that user. -/
theorem usability_boundary (s : Store) (u : Int) (fileSize : Option Nat)
    (raw : Except (List Char) (List Char)) (text : List Char)
    (hex : extract_text raw = .ok text) (hgate : sizeGate fileSize = false) :
    (text.length < 50 →
      handle_document s u fileSize raw = (s, .replied noUsableMsg)) ∧
    (50 ≤ text.length →
      handle_document s u fileSize raw =
        (setText s u text, .replied storedMsg) ∧
      setText s u text u = some text) := by
  constructor
  · intro hlt
    simp [handle_document, hgate, hex, hlt]
  · intro hge
    have hnlt : ¬(text.length < 50) := by omega
    exact ⟨by simp [handle_document, hgate, hex, hnlt], by simp [setText]⟩

/-- Witness for C5 at the boundary: 49 characters are rejected, 50 are
stored. -/
theorem usability_boundary_witness :
    (List.replicate 49 'a').length < 50 ∧
    handle_document (fun _ => none) 0 none (.ok (List.replicate 49 'a')) =
      ((fun _ => none : Store), .replied noUsableMsg) ∧
    50 ≤ (List.replicate 50 'a').length ∧
    handle_document (fun _ => none) 0 none (.ok (List.replicate 50 'a')) =
      (setText (fun _ => none) 0 (List.replicate 50 'a'),
        .replied storedMsg) ∧
    setText (fun _ => none) 0 (List.replicate 50 'a') 0 =
      some (List.replicate 50 'a') := by
  refine ⟨by decide, ?_, by decide, ?_, ?_⟩
  · exact (usability_boundary (fun _ => none) 0 none
      (.ok (List.replicate 49 'a')) (List.replicate 49 'a') rfl rfl).1
      (by decide)
  · exact ((usability_boundary (fun _ => none) 0 none
      (.ok (List.replicate 50 'a')) (List.replicate 50 'a') rfl rfl).2
      (by decide)).1
  · exact ((usability_boundary (fun _ => none) 0 none
      (.ok (List.replicate 50 'a')) (List.replicate 50 'a') rfl rfl).2
      (by decide)).2

/-- C6: an extraction yielding text shorter than the usability threshold
leaves the user's session-store entry unchanged (the whole store is returned
untouched, so an existing entry is preserved and an absent one stays absent)
and replies with the extraction-failure message, in both the document and the
photo handler. -/
theorem short_extraction_preserves_store (s : Store) (u : Int)
    (fileSize : Option Nat) (raw : Except (List Char) (List Char))
    (text : List Char) (hex : extract_text raw = .ok text)
    (hshort : text.length < 50) :
    (sizeGate fileSize = false →
      handle_document s u fileSize raw = (s, .replied noUsableMsg)) ∧
    handle_photo s u raw = (s, .replied noUsablePhotoMsg) := by
  constructor
  · intro hgate
    simp [handle_document, hgate, hex, hshort]
  · simp [handle_photo, hex, hshort]

/-- Witness for C6 at a concrete input: a store holding `"z"` for user 0 is
returned unchanged when extraction yields the empty text. -/
theorem short_extraction_preserves_store_witness :
    handle_document (fun v => if v = 0 then some ('z' :: []) else none) 0 none
      (.ok []) =
      ((fun v => if v = 0 then some ('z' :: []) else none : Store),
        .replied noUsableMsg) ∧
    handle_photo (fun v => if v = 0 then some ('z' :: []) else none) 0
      (.ok []) =
      ((fun v => if v = 0 then some ('z' :: []) else none : Store),
        .replied noUsablePhotoMsg) :=
  ⟨(short_extraction_preserves_store
      (fun v => if v = 0 then some ('z' :: []) else none) 0 none (.ok []) []
      rfl (by decide)).1 rfl,
    (short_extraction_preserves_store
      (fun v => if v = 0 then some ('z' :: []) else none) 0 none (.ok []) []
      rfl (by decide)).2⟩

/-- C7: after storing a text for user `u`, the forget button removes the
entry (`get` is absent); the forget button on a store with no entry for `u`
is a no-op returning the store unchanged (and the model has no failure
channel — `pop` with a default never raises); and a question asked after the
forget produces the open-domain prompt, which has no context section. -/
theorem forget_clears (s : Store) (u : Int) (A qraw : List Char)
    (backend : Except (List Char) (Option (List Char)))
    (hqs : pyStrip qraw = qraw) (hqne : qraw ≠ []) :
    (handle_buttons (setText s u A) u (some forgetButton)).1 u = none ∧
    (∀ s₂ : Store, s₂ u = none →
      (handle_buttons s₂ u (some forgetButton)).1 = s₂) ∧
    (∃ r : QReply,
      handle_question
        ((handle_buttons (setText s u A) u (some forgetButton)).1)
        u (some qraw) backend = some r ∧
      r.prompt = openPre ++ qraw) := by
  have hbtn : pyStrip forgetButton = forgetButton := by decide
  have hpop : ∀ s₃ : Store,
      (handle_buttons s₃ u (some forgetButton)).1 = popText s₃ u := by
    intro s₃
    simp [handle_buttons, hbtn]
  have hnone : (handle_buttons (setText s u A) u (some forgetButton)).1 u =
      none := by
    rw [hpop]
    simp [popText]
  refine ⟨hnone, ?_, ?_⟩
  · intro s₂ h2
    rw [hpop]
    funext v
    by_cases hv : v = u
    · subst hv
      simp [popText, h2]
    · simp [popText, hv]
  · rcases backend with e | respText
    · exact ⟨⟨openPre ++ qraw, geminiErrorMsg, some e⟩,
        by simp [handle_question, hqs, hqne, buildPrompt, hnone], rfl⟩
    · exact ⟨⟨openPre ++ qraw,
        if gemini_answer respText = [] then noAnswerMsg
        else gemini_answer respText, none⟩,
        by simp [handle_question, hqs, hqne, buildPrompt, hnone], rfl⟩

/-- Witness for C7 at a concrete input: user 0, stored text `"a"`, question
`"x"`, backend answering `"y"`. -/
theorem forget_clears_witness :
    (handle_buttons (setText (fun _ => none) 0 ('a' :: [])) 0
      (some forgetButton)).1 0 = none ∧
    (∀ s₂ : Store, s₂ 0 = none →
      (handle_buttons s₂ 0 (some forgetButton)).1 = s₂) ∧
    (∃ r : QReply,
      handle_question
        ((handle_buttons (setText (fun _ => none) 0 ('a' :: [])) 0
          (some forgetButton)).1)
        0 (some ('x' :: [])) (.ok (some ('y' :: []))) = some r ∧
      r.prompt = openPre ++ ('x' :: [])) :=
  forget_clears (fun _ => none) 0 ('a' :: []) ('x' :: [])
    (.ok (some ('y' :: []))) (by decide) (by decide)

/-- C8: every failure of the Gemini call is caught inside `handle_question`
— the handler still returns a reply, that reply is the fixed generic message
`geminiErrorMsg` for every exception `e` (so it never contains the
exception's internals), and the cause `e` is logged; and when the backend
succeeds with an answer that strips to empty, the fixed sentinel
`noAnswerMsg` is sent instead of an empty message. -/
theorem backend_failure_contained (s : Store) (u : Int) (qraw : List Char)
    (hqs : pyStrip qraw = qraw) (hqne : qraw ≠ []) :
    (∀ e : List Char,
      handle_question s u (some qraw) (.error e) =
        some ⟨buildPrompt s u qraw, geminiErrorMsg, some e⟩) ∧
    (∀ respText : Option (List Char), gemini_answer respText = [] →
      handle_question s u (some qraw) (.ok respText) =
        some ⟨buildPrompt s u qraw, noAnswerMsg, none⟩) := by
  constructor
  · intro e
    simp [handle_question, hqs, hqne]
  · intro respText hempty
    simp [handle_question, hqs, hqne, hempty]

/-- Witness for C8 at a concrete input: question `"x"`, an exception `"b"`,
and an empty backend result. -/
theorem backend_failure_contained_witness :
    handle_question (fun _ => none) 0 (some ('x' :: []))
      (.error ('b' :: [])) =
      some ⟨buildPrompt (fun _ => none) 0 ('x' :: []), geminiErrorMsg,
        some ('b' :: [])⟩ ∧
    handle_question (fun _ => none) 0 (some ('x' :: [])) (.ok none) =
      some ⟨buildPrompt (fun _ => none) 0 ('x' :: []), noAnswerMsg, none⟩ :=
  ⟨(backend_failure_contained _ 0 _ (by decide) (by decide)).1 ('b' :: []),
    (backend_failure_contained _ 0 _ (by decide) (by decide)).2 none
      (by decide)⟩

/-- C9 counterexample: with no size gate and an extraction-library exception
`"b"`, `handle_document` lets the exception escape uncaught
(`DocResult.raised`) instead of replying with the no-usable-text message —
there is no `try`/`except` around line 149. -/
theorem extraction_exception_escapes_counterexample :
    (handle_document (fun _ => none) 0 none (.error ('b' :: []))).2 =
      DocResult.raised ('b' :: []) ∧
    (handle_document (fun _ => none) 0 none (.error ('b' :: []))).2 ≠
      DocResult.replied noUsableMsg := by
  exact ⟨rfl, by decide⟩

/-- C9 amended: a document (or photo) event whose extraction raises lets the
exception propagate out of the per-request handler uncaught; the session
store is left unchanged and no reply is produced by the handler. -/
theorem extraction_exception_escapes (s : Store) (u : Int)
    (fileSize : Option Nat) (e : List Char)
    (hgate : sizeGate fileSize = false) :
    handle_document s u fileSize (.error e) = (s, .raised e) ∧
    handle_photo s u (.error e) = (s, .raised e) := by
  constructor
  · simp [handle_document, hgate, extract_text]
  · simp [handle_photo, extract_text]

/-- Witness for the amended C9 at a concrete input. -/
theorem extraction_exception_escapes_witness :
    handle_document (fun _ => none) 0 none (.error ('b' :: [])) =
      ((fun _ => none : Store), DocResult.raised ('b' :: [])) ∧
    handle_photo (fun _ => none) 0 (.error ('b' :: [])) =
      ((fun _ => none : Store), DocResult.raised ('b' :: [])) :=
  extraction_exception_escapes (fun _ => none) 0 none ('b' :: []) rfl

/-- C10: a document whose declared file size is absent (`None`) or zero is
never rejected by the size gate regardless of anything else: the gate
evaluates to false, the handler behaves exactly as with no declared size, and
its outcome is never the too-large reply — it proceeds to extraction. -/
theorem absent_or_zero_size_not_gated (s : Store) (u : Int)
    (raw : Except (List Char) (List Char)) (fileSize : Option Nat)
    (h : fileSize = none ∨ fileSize = some 0) :
    sizeGate fileSize = false ∧
    handle_document s u fileSize raw = handle_document s u none raw ∧
    (handle_document s u fileSize raw).2 ≠ DocResult.replied tooLargeMsg := by
  have hg : sizeGate fileSize = false := by
    rcases h with h | h <;> subst h <;> rfl
  refine ⟨hg, ?_, ?_⟩
  · unfold handle_document
    rw [hg]
    simp [sizeGate]
  · rcases raw with e | t
    · simp [handle_document, hg, extract_text]
    · simp only [handle_document, hg, extract_text, Bool.false_eq_true,
        if_false]
      by_cases hlen : (normalize_persian t).length < 50 <;>
        simp [hlen] <;> decide

/-- Witness for C10 at a concrete input: declared size 0. -/
theorem absent_or_zero_size_not_gated_witness :
    sizeGate (some 0) = false ∧
    handle_document (fun _ => none) 0 (some 0) (.ok []) =
      handle_document (fun _ => none) 0 none (.ok []) ∧
    (handle_document (fun _ => none) 0 (some 0) (.ok [])).2 ≠
      DocResult.replied tooLargeMsg :=
  absent_or_zero_size_not_gated (fun _ => none) 0 (.ok []) (some 0)
    (Or.inr rfl)
